import Mathlib

/-!
Verification of the binding definition, validation, routing and protocol
translation layer of the azfunc-deno repository.

The definitions below are shallow embeddings of the TypeScript sources:
  - src/azure/functions/define.ts (indexBindings, defineHttpFunction)
  - src/azure/functions/lib/path.ts (normalizeFunctionDir)
  - src/azure/functions/lib/errors.ts (AppError, toErrorPayload) and the
    byte-limited stream readers (readStreamBytesLimited, readStreamTextLimited)
  - src/azure/functions/invoke.ts (headersToAzure, toAzureHttpResponseData,
    invokeResponseFromHttpResponse, the Headers expansion of toDenoRequest)
  - src/azure/functions/router.ts (extractFunctionName, buildAzureFunctionsRouter's
    handle: routing prelude and the catch clause, httpInvokeErrorResponse)

JavaScript strings are modelled as Lean String, byte streams as lists of
chunks, JS Map and plain-object records as ordered association lists, and
thrown exceptions as Except errors.
-/

namespace AzFunc

/-- JSON values, the payload universe of the custom-handler wire protocol.
Numbers are restricted to naturals, which covers every numeric value the
embedded code produces (status codes and byte limits). -/
inductive Json where
  | str : String → Json
  | num : Nat → Json
  | bool : Bool → Json
  | null : Json
  | arr : List Json → Json
  | obj : List (String × Json) → Json

/-- Escape of a single character inside a JSON string literal, the subset of
JSON.stringify escaping relevant to the strings this development evaluates. -/
def escapeJsonChar (c : Char) : String :=
  if c = '"' then "\\\""
  else if c = '\\' then "\\\\"
  else if c = '\n' then "\\n"
  else if c = '\r' then "\\r"
  else if c = '\t' then "\\t"
  else String.singleton c

/-- JSON string literal serialization. -/
def serializeJsonString (s : String) : String :=
  "\"" ++ String.join (s.data.map escapeJsonChar) ++ "\""

mutual

/-- Serialization of a JSON value, modelling JSON.stringify as used by
Response.json when the router builds wire responses. -/
def serializeJson : Json → String
  | .str s => serializeJsonString s
  | .num n => toString n
  | .bool b => if b then "true" else "false"
  | .null => "null"
  | .arr xs => "[" ++ serializeJsonArr xs ++ "]"
  | .obj fs => "\x7b" ++ serializeJsonObj fs ++ "\x7d"

/-- Serialization of the elements of a JSON array. -/
def serializeJsonArr : List Json → String
  | [] => ""
  | [x] => serializeJson x
  | x :: y :: rest => serializeJson x ++ "," ++ serializeJsonArr (y :: rest)

/-- Serialization of the fields of a JSON object. -/
def serializeJsonObj : List (String × Json) → String
  | [] => ""
  | [(k, v)] => serializeJsonString k ++ ":" ++ serializeJson v
  | (k, v) :: f :: rest =>
      serializeJsonString k ++ ":" ++ serializeJson v ++ "," ++ serializeJsonObj (f :: rest)

end

/-- Error taxonomy of lib/errors.ts (AppErrorCode). -/
inductive AppErrorCode where
  | DEFINITION
  | BAD_REQUEST
  | NOT_FOUND
  | INTERNAL
deriving DecidableEq

/-- Default wire status per error code (defaultStatus in lib/errors.ts). -/
def defaultStatus : AppErrorCode → Nat
  | .DEFINITION => 500
  | .BAD_REQUEST => 400
  | .NOT_FOUND => 404
  | .INTERNAL => 500

/-- Wire name of an error code, as serialized into error payloads. -/
def codeString : AppErrorCode → String
  | .DEFINITION => "DEFINITION"
  | .BAD_REQUEST => "BAD_REQUEST"
  | .NOT_FOUND => "NOT_FOUND"
  | .INTERNAL => "INTERNAL"

/-- AppError of lib/errors.ts: code, message, resolved status and optional
structured details. -/
structure AppError where
  code : AppErrorCode
  message : String
  status : Nat
  details : Option Json

/-- AppError construction without options: status falls back to the code's
default, no details (new AppError(code, message)). -/
def AppError.make (code : AppErrorCode) (message : String) : AppError :=
  ⟨code, message, defaultStatus code, none⟩

/-- AppError construction with a details payload
(new AppError(code, message, \x7b details \x7d)). -/
def AppError.makeDetails (code : AppErrorCode) (message : String) (details : Json) : AppError :=
  ⟨code, message, defaultStatus code, some details⟩

/-- Binding direction ("in" | "out" | "inout"). -/
inductive Direction where
  | inDir
  | outDir
  | inoutDir
deriving DecidableEq

/-- Declarative binding tuple: name, type tag and direction (bindings/index.ts).
Type-specific extra fields are opaque to the validation and routing layer and
are not represented. -/
structure Binding where
  name : String
  type : String
  direction : Direction
deriving DecidableEq

/-- Trigger inference heuristic isLikelyTriggerBinding (define.ts):
direction is "in" and the type matches /trigger$/i, i.e. the lowercased type
ends with "trigger". -/
def isLikelyTriggerBinding (b : Binding) : Bool :=
  b.direction == .inDir &&
    ((b.type.data.map Char.toLower).reverse.take 7 == "trigger".data.reverse)

/-- Type guard isHttpTriggerBinding (bindings/http.ts):
type "httpTrigger" with direction "in". -/
def isHttpTriggerBinding (b : Binding) : Bool :=
  b.type == "httpTrigger" && b.direction == .inDir

/-- Type guard isHttpOutputBinding (bindings/http.ts):
type "http" with direction "out". -/
def isHttpOutputBinding (b : Binding) : Bool :=
  b.type == "http" && b.direction == .outDir

/-- Scan for the first duplicated binding name, modelling the byName Map
construction loop of indexBindings: iterate in order, fail on the first name
already seen. -/
def findDupName : List Binding → List String → Option String
  | [], _ => none
  | b :: rest, seen =>
      if b.name ∈ seen then some b.name else findDupName rest (b.name :: seen)

/-- Duplicate-name DEFINITION error message of indexBindings. -/
def duplicateNameMsg (n : String) : String :=
  s!"Duplicate binding name \"{n}\"."

/-- Multiple-trigger DEFINITION error message of indexBindings. -/
def triggerCountMsg (n : Nat) : String :=
  s!"function.json must define exactly 1 trigger binding; found {n}."

/-- Details payload carried by the multiple-trigger DEFINITION error
(\x7b triggerTypes: [...] \x7d). -/
def triggerTypesDetails (cands : List Binding) : Json :=
  .obj [("triggerTypes", .arr (cands.map (fun b => .str b.type)))]

/-- Insert a binding into the byType grouping (byType Map of indexBindings):
append to the list under an existing type key, else add a new key. -/
def byTypeUpsert : List (String × List Binding) → Binding → List (String × List Binding)
  | [], b => [(b.type, [b])]
  | (t, l) :: rest, b =>
      if t = b.type then (t, l ++ [b]) :: rest else (t, l) :: byTypeUpsert rest b

/-- Grouping of bindings by type tag, in first-occurrence order. -/
def buildByType (all : List Binding) : List (String × List Binding) :=
  all.foldl byTypeUpsert []

/-- FunctionBindingsIndex of define.ts: the validated, indexed binding set.
The byName map is represented as the association list of (name, binding)
pairs in declaration order, which equals the JS Map contents once the
duplicate-name check has passed. -/
structure FunctionBindingsIndex where
  all : List Binding
  trigger : Binding
  inputs : List Binding
  outputs : List Binding
  byName : List (String × Binding)
  byType : List (String × List Binding)
deriving DecidableEq

/-- indexBindings of define.ts: partition by direction, infer the trigger
(unique /trigger$/i candidate, else first "in" binding), reject duplicate
names and multiple trigger candidates. -/
def indexBindings (all : List Binding) : Except AppError FunctionBindingsIndex :=
  let inputs := all.filter (fun b => b.direction == .inDir)
  let outputs := all.filter (fun b => b.direction == .outDir)
  let triggerCandidates := all.filter isLikelyTriggerBinding
  match findDupName all [] with
  | some n => .error (AppError.make .DEFINITION (duplicateNameMsg n))
  | none =>
      if triggerCandidates.length > 1 then
        .error (AppError.makeDetails .DEFINITION (triggerCountMsg triggerCandidates.length)
          (triggerTypesDetails triggerCandidates))
      else
        match triggerCandidates.head? <|> inputs.head? with
        | some t =>
            .ok ⟨all, t, inputs, outputs, all.map (fun b => (b.name, b)), buildByType all⟩
        | none => .error (AppError.make .DEFINITION "Unable to infer trigger binding.")

/-- Lowercasing of a string, modelling String.prototype.toLowerCase on the
ASCII header and type names this layer manipulates. -/
def strToLower (s : String) : String :=
  String.mk (s.data.map Char.toLower)

/-- Whitespace trim of both ends, modelling String.prototype.trim. -/
def strTrim (s : String) : String :=
  String.mk (((s.data.dropWhile Char.isWhitespace).reverse.dropWhile Char.isWhitespace).reverse)

/-- Replacement of every backslash by a forward slash
(toPosixPath in lib/path.ts, a single-character replaceAll). -/
def toPosixPath (s : String) : String :=
  String.mk (s.data.map (fun c => if c = '\\' then '/' else c))

/-- Removal of leading and trailing slash runs
(the replace(slash-runs) steps of normalizeFunctionDir). -/
def stripSlashes (s : String) : String :=
  String.mk (((s.data.dropWhile (fun c => c = '/')).reverse.dropWhile (fun c => c = '/')).reverse)

/-- Containment of a character pattern at the head of a character list. -/
def startsWithChars : List Char → List Char → Bool
  | [], _ => true
  | _ :: _, [] => false
  | p :: ps, c :: cs => p == c && startsWithChars ps cs

/-- Containment of a character pattern anywhere in a character list,
modelling String.prototype.includes. -/
def hasInfixChars (pat : List Char) : List Char → Bool
  | [] => startsWithChars pat []
  | c :: cs => startsWithChars pat (c :: cs) || hasInfixChars pat cs

/-- DEFINITION message for an empty function dir. -/
def emptyDirMsg : String := "Function dir must be non-empty."

/-- DEFINITION message for a function dir containing "..". -/
def dotdotDirMsg (dir : String) : String :=
  s!"Function dir must not contain \"..\": {dir}"

/-- DEFINITION message for a function dir containing a newline. -/
def newlineDirMsg (dir : String) : String :=
  s!"Function dir must not contain newlines: {dir}"

/-- normalizeFunctionDir of lib/path.ts: convert backslashes to slashes,
strip leading and trailing slashes, then reject results that are
whitespace-only, contain "..", or contain a newline or carriage return. -/
def normalizeFunctionDir (dir : String) : Except AppError String :=
  let d := stripSlashes (toPosixPath dir)
  if strTrim d = "" then
    .error (AppError.make .DEFINITION emptyDirMsg)
  else if hasInfixChars "..".data d.data then
    .error (AppError.make .DEFINITION (dotdotDirMsg dir))
  else if d.data.any (fun c => c = '\n' || c = '\r') then
    .error (AppError.make .DEFINITION (newlineDirMsg dir))
  else
    .ok d

/-- HttpFunctionDefinition of define.ts, restricted to the fields the claims
observe: normalized dir, bindings index, and the recorded trigger/output
binding names (the http \x7b triggerName, outName \x7d record). -/
structure HttpFunctionDefinition where
  dir : String
  bindings : FunctionBindingsIndex
  triggerName : String
  outName : String
deriving DecidableEq

/-- DEFINITION error message for a wrong httpTrigger count in defineHttpFunction. -/
def httpTriggerCountMsg (d : String) (n : Nat) : String :=
  s!"HTTP function \"{d}\" must define exactly one \"httpTrigger\"; found {n}."

/-- DEFINITION error message for a wrong http output count in defineHttpFunction. -/
def httpOutCountMsg (d : String) (n : Nat) : String :=
  s!"HTTP function \"{d}\" must define exactly one \"http\" output binding; found {n}."

/-- Placeholder binding used only to extract the head of a list already known
to have length one, mirroring the infallible httpTriggers[0] indexing. -/
def dummyBinding : Binding := ⟨"", "", .outDir⟩

/-- defineHttpFunction of define.ts: normalize the dir, require a non-empty
binding list, run indexBindings, then require exactly one httpTrigger binding
and exactly one http output binding, recording their names. -/
def defineHttpFunction (dirRaw : String) (bs : List Binding) :
    Except AppError HttpFunctionDefinition :=
  match normalizeFunctionDir dirRaw with
  | .error e => .error e
  | .ok d =>
      if bs.isEmpty then
        .error (AppError.make .DEFINITION "functionJson.bindings is empty.")
      else
        match indexBindings bs with
        | .error e => .error e
        | .ok idx =>
            let httpTriggers := bs.filter isHttpTriggerBinding
            if httpTriggers.length ≠ 1 then
              .error (AppError.make .DEFINITION (httpTriggerCountMsg d httpTriggers.length))
            else
              let httpOuts := bs.filter isHttpOutputBinding
              if httpOuts.length ≠ 1 then
                .error (AppError.make .DEFINITION (httpOutCountMsg d httpOuts.length))
              else
                .ok ⟨d, idx, (httpTriggers.headD dummyBinding).name,
                  (httpOuts.headD dummyBinding).name⟩

/-- Append of one header entry into a Fetch Headers container, modelled as an
ordered association list with lowercased names; an existing name has the new
value combined with ", " (Headers.append semantics). -/
def appendHeader : List (String × String) → String → String → List (String × String)
  | [], k, v => [(strToLower k, v)]
  | (k0, v0) :: rest, k, v =>
      if k0 = strToLower k then (k0, v0 ++ ", " ++ v) :: rest
      else (k0, v0) :: appendHeader rest k v

/-- Construction of a Headers container from literal (name, value) pairs,
as new Headers(init) does: append each pair in order. -/
def mkHeaders (init : List (String × String)) : List (String × String) :=
  init.foldl (fun acc kv => appendHeader acc kv.1 kv.2) []

/-- Expansion of the wire Headers map (string to string-array) into a Fetch
Headers container, the loop of toDenoRequest in invoke.ts: append every array
entry under its name. -/
def expandHeaders (hs : List (String × List String)) : List (String × String) :=
  hs.foldl (fun acc kvs => kvs.2.foldl (fun a v => appendHeader a kvs.1 v) acc) []

/-- Membership of a character in the HTTP token grammar
(HEADER_NAME_TOKEN_RE of invoke.ts). -/
def isTokenChar (c : Char) : Bool :=
  c = '!' || c = '#' || c = '$' || c = '%' || c = '&' || c = Char.ofNat 39 ||
  c = '*' || c = '+' || c = '-' || c = '.' || c = '^' || c = '_' ||
  c = Char.ofNat 96 || c = '|' || c = '~' ||
  ('0' ≤ c && c ≤ '9') || ('A' ≤ c && c ≤ 'Z') || ('a' ≤ c && c ≤ 'z')

/-- Match of a full header name against the HTTP token grammar: non-empty and
token characters only. -/
def isTokenName (s : String) : Bool :=
  !s.isEmpty && s.data.all isTokenChar

/-- Characters rejected by assertSafeHeaderValueAscii: the code is below 0x20,
equal to 0x7f, or above 0x7f. -/
def unsafeHeaderValueChar (c : Char) : Bool :=
  c.toNat < 0x20 || c.toNat = 0x7f || c.toNat > 0x7f

/-- Hexadecimal rendering of a character code, zero-padded to four digits
(code.toString(16).padStart(4, "0")). -/
def hexPad4 (n : Nat) : String :=
  let ds := Nat.toDigits 16 n
  String.mk (List.replicate (4 - ds.length) '0' ++ ds)

/-- INTERNAL error message of assertSafeHeaderName. -/
def unsafeHeaderNameMsg (name : String) : String :=
  s!"Unsafe HTTP response header name: {name}"

/-- INTERNAL error message of assertSafeHeaderValueAscii, naming the header
and the offending character code. -/
def unsafeHeaderValueMsg (name : String) (code : Nat) : String :=
  let h := hexPad4 code
  s!"Unsafe HTTP response header value for \"{name}\" (char 0x{h})."

/-- headersToAzure of invoke.ts: walk the Headers entries in order, skip
Set-Cookie, reject non-token names and unsafe values (first offending
character wins), and emit the surviving entries unchanged into the wire map. -/
def headersToAzure : List (String × String) → Except AppError (List (String × String))
  | [] => .ok []
  | (k, v) :: rest =>
      if strToLower k = "set-cookie" then headersToAzure rest
      else if !(isTokenName k) then .error (AppError.make .INTERNAL (unsafeHeaderNameMsg k))
      else
        match v.data.find? unsafeHeaderValueChar with
        | some c => .error (AppError.make .INTERNAL (unsafeHeaderValueMsg k c.toNat))
        | none => (headersToAzure rest).map (fun out => (k, v) :: out)

/-- BAD_REQUEST message raised by the byte-limited readers when the ceiling is
exceeded. -/
def tooLargeMsg (what : String) (maxBytes : Nat) : String :=
  s!"{what} too large (>{maxBytes} bytes)."

/-- Details payload of the byte-ceiling BAD_REQUEST error. -/
def maxBytesDetails (m : Nat) : Json :=
  .obj [("maxBytes", .num m)]

/-- Loop of readStreamBytesLimited (lib/streams.ts) over a stream of byte
chunks: accumulate the running total, fail once it exceeds the ceiling
(without retaining the failing chunk), otherwise retain the chunk. -/
def readBytesGo : List (List Nat) → Nat → Nat → String → Except AppError (List Nat)
  | [], _, _, _ => .ok []
  | c :: rest, maxBytes, total, what =>
      let t := total + c.length
      if t > maxBytes then
        .error (AppError.makeDetails .BAD_REQUEST (tooLargeMsg what maxBytes) (maxBytesDetails maxBytes))
      else (readBytesGo rest maxBytes t what).map (fun tail => c ++ tail)

/-- readStreamBytesLimited of lib/streams.ts: read an entire chunked byte
stream under a strict byte ceiling. -/
def readStreamBytesLimited (chunks : List (List Nat)) (maxBytes : Nat)
    (what : String := "stream") : Except AppError (List Nat) :=
  readBytesGo chunks maxBytes 0 what

/-- Running totals of the retained buffer after each successful iteration of
the readStreamBytesLimited loop: the sizes the chunks array passes through.
A chunk that pushes the total over the ceiling is never retained. -/
def retainedTotals : List (List Nat) → Nat → Nat → List Nat
  | [], _, _ => []
  | c :: rest, maxBytes, total =>
      let t := total + c.length
      if t > maxBytes then [] else t :: retainedTotals rest maxBytes t

/-- Loop of readStreamTextLimited over text chunks: identical to the byte
loop, with each chunk contributing its UTF-8 byte size, and the retained
chunks concatenated and decoded back to text. -/
def readTextGo : List String → Nat → Nat → String → Except AppError String
  | [], _, _, _ => .ok ""
  | c :: rest, maxBytes, total, what =>
      let t := total + c.utf8ByteSize
      if t > maxBytes then
        .error (AppError.makeDetails .BAD_REQUEST (tooLargeMsg what maxBytes) (maxBytesDetails maxBytes))
      else (readTextGo rest maxBytes t what).map (fun tail => c ++ tail)

/-- readStreamTextLimited of lib/streams.ts, on a body modelled as UTF-8 text
chunks. -/
def readStreamTextLimited (chunks : List String) (maxBytes : Nat) (what : String) :
    Except AppError String :=
  readTextGo chunks maxBytes 0 what

/-- Structured Response model: status, a Fetch Headers container (lowercased
names, iteration order) and an optional body given as text chunks. -/
structure ResponseM where
  status : Nat
  headers : List (String × String)
  body : Option (List String)

/-- AzureHttpResponseData of invoke.ts, as produced by toAzureHttpResponseData:
statusCode always present, headers present only when non-empty, body present
only when the response had one. -/
structure AzureHttpResponseData where
  statusCode : Nat
  headers : Option (List (String × String))
  body : Option String

/-- toAzureHttpResponseData of invoke.ts: buffer the body under the byte
ceiling, encode the headers through the safety checks, keep the status. -/
def toAzureHttpResponseData (res : ResponseM) (maxBodyBytes : Nat) :
    Except AppError AzureHttpResponseData :=
  match (match res.body with
         | some chunks => (readStreamTextLimited chunks maxBodyBytes "HTTP response body").map some
         | none => .ok none) with
  | .error e => .error e
  | .ok bodyText =>
      match headersToAzure res.headers with
      | .error e => .error e
      | .ok headers =>
          .ok ⟨res.status, if headers.length > 0 then some headers else none, bodyText⟩

/-- JSON rendering of an AzureHttpResponseData value, with the optional
fields omitted exactly as the TS object spread does. -/
def azureHttpResponseDataJson (h : AzureHttpResponseData) : Json :=
  .obj ([("statusCode", .num h.statusCode)] ++
    (match h.headers with
     | some hs => [("headers", .obj (hs.map (fun p => (p.1, .str p.2))))]
     | none => []) ++
    (match h.body with
     | some b => [("body", .str b)]
     | none => []))

/-- InvokeResponse result envelope: Outputs, Logs, ReturnValue, each optional. -/
structure InvokeResponse where
  Outputs : Option (List (String × Json)) := none
  Logs : Option (List String) := none
  ReturnValue : Option Json := none

/-- JSON rendering of an InvokeResponse envelope with absent fields omitted. -/
def invokeResponseJson (r : InvokeResponse) : Json :=
  .obj ((match r.Outputs with
         | some os => [("Outputs", .obj os)]
         | none => []) ++
        (match r.Logs with
         | some ls => [("Logs", .arr (ls.map .str))]
         | none => []) ++
        (match r.ReturnValue with
         | some v => [("ReturnValue", v)]
         | none => []))

/-- invokeResponseFromHttpResponse of invoke.ts: encode the Response and place
it under ReturnValue when the output binding name is the "$return" sentinel,
else under Outputs at exactly that name. -/
def invokeResponseFromHttpResponse (httpOutName : String) (res : ResponseM)
    (maxBodyBytes : Nat) : Except AppError InvokeResponse :=
  (toAzureHttpResponseData res maxBodyBytes).map (fun httpRes =>
    if httpOutName = "$return" then
      { ReturnValue := some (azureHttpResponseDataJson httpRes) }
    else
      { Outputs := some [(httpOutName, azureHttpResponseDataJson httpRes)] })

/-- Value thrown during request handling: an AppError or any other exception,
retaining only its message (as toErrorPayload does). -/
inductive Thrown where
  | app : AppError → Thrown
  | other : String → Thrown

/-- Error payload shape \x7b error, message, details? \x7d of lib/errors.ts. -/
structure ErrorPayload where
  error : AppErrorCode
  message : String
  details : Option Json

/-- Result of toErrorPayload: the derived wire status plus the payload body. -/
structure StatusPayload where
  status : Nat
  body : ErrorPayload

/-- toErrorPayload of lib/errors.ts: an AppError keeps its status, code,
message and details; anything else becomes a 500 INTERNAL with its message. -/
def toErrorPayload : Thrown → StatusPayload
  | .app e => ⟨e.status, ⟨e.code, e.message, e.details⟩⟩
  | .other m => ⟨500, ⟨.INTERNAL, m, none⟩⟩

/-- JSON rendering of an error payload, details omitted when absent. -/
def errorPayloadJson (p : ErrorPayload) : Json :=
  .obj ([("error", .str (codeString p.error)), ("message", .str p.message)] ++
    (match p.details with
     | some d => [("details", d)]
     | none => []))

/-- Wire-level response the router hands to the transport: status plus JSON
body (Response.json). -/
structure WireResponse where
  status : Nat
  body : Json

/-- Response.json(body, status): a Response whose body is the serialized JSON
text and whose headers carry content-type: application/json. -/
def responseJson (body : Json) (status : Nat) : ResponseM :=
  ⟨status, mkHeaders [("content-type", "application/json")], some [serializeJson body]⟩

/-- httpInvokeErrorResponse of router.ts: build the caller-visible error
Response carrying the payload at its real status, encode it into the HTTP
output binding envelope, and return it to the host at wire status 200. -/
def httpInvokeErrorResponse (httpOutName : String) (err : Thrown) (maxBodyBytes : Nat) :
    Except AppError WireResponse :=
  let p := toErrorPayload err
  let callerRes := responseJson (errorPayloadJson p.body) p.status
  (invokeResponseFromHttpResponse httpOutName callerRes maxBodyBytes).map
    (fun ir => ⟨200, invokeResponseJson ir⟩)

/-- Function kind: HTTP-shaped or generic trigger. -/
inductive FnKind where
  | http
  | trigger
deriving DecidableEq

/-- Registered function as the router sees it: name, kind, and for HTTP-shaped
functions the recorded http output binding name. -/
structure FunctionDefM where
  name : String
  kind : FnKind
  outName : String
deriving DecidableEq

/-- Catch clause of buildAzureFunctionsRouter.handle: an HTTP-shaped function
answers through httpInvokeErrorResponse; a trigger function answers with the
payload body at its own status clamped to at least 400 (500 otherwise). An
error result models an exception escaping to the transport. -/
def handleCaughtError (fn : FunctionDefM) (err : Thrown) (maxHttpResponseBodyBytes : Nat) :
    Except AppError WireResponse :=
  match fn.kind with
  | .http => httpInvokeErrorResponse fn.outName err maxHttpResponseBodyBytes
  | .trigger =>
      let p := toErrorPayload err
      .ok ⟨if p.status ≥ 400 then p.status else 500, errorPayloadJson p.body⟩

/-- extractFunctionName of router.ts: strip leading slashes and keep the first
path segment (pathname.replace, then split("/")[0] with "" fallback). -/
def extractFunctionName (pathname : String) : String :=
  String.mk ((pathname.data.dropWhile (fun c => c = '/')).takeWhile (fun c => c ≠ '/'))

/-- Map.set on the router's name-keyed function map: replace the value of an
existing key in place, else append the new entry. -/
def jsMapSet (m : List (String × FunctionDefM)) (k : String) (v : FunctionDefM) :
    List (String × FunctionDefM) :=
  if m.any (fun p => p.1 = k) then
    m.map (fun p => if p.1 = k then (k, v) else p)
  else m ++ [(k, v)]

/-- Construction of the router's function map: for each function in order,
map.set(fn.name, fn). -/
def buildMap (fns : List FunctionDefM) : List (String × FunctionDefM) :=
  fns.foldl (fun m fn => jsMapSet m fn.name fn) []

/-- Map.get by function name. -/
def jsMapGet (m : List (String × FunctionDefM)) (k : String) : Option FunctionDefM :=
  (m.find? (fun p => p.1 = k)).map Prod.snd

/-- Keys of the function map in insertion order ([...map.keys()]). -/
def jsMapKeys (m : List (String × FunctionDefM)) : List String :=
  m.map Prod.fst

/-- Lexicographic sort of a string list, modelling Array.prototype.sort. -/
def sortStrings (l : List String) : List String :=
  l.insertionSort (fun a b => a ≤ b)

/-- 404 NotFound wire response of handle, listing the known function names. -/
def notFoundResponse (pathname : String) (known : List String) : WireResponse :=
  ⟨404, .obj [("error", .str "NotFound"),
              ("message", .str "No function matched this invocation path."),
              ("request", .obj [("pathname", .str pathname)]),
              ("knownFunctions", .arr (known.map .str))]⟩

/-- 405 MethodNotAllowed wire response of handle. -/
def methodNotAllowedResponse (method pathname : String) : WireResponse :=
  ⟨405, .obj [("error", .str "MethodNotAllowed"),
              ("message", .str "Custom handler endpoints are invoked by the Functions host using POST."),
              ("request", .obj [("method", .str method), ("pathname", .str pathname)])]⟩

/-- Outcome of the routing prelude of handle: an early wire response (405 or
404) or the matched function descriptor handed to the invocation path. -/
inductive RouteResult where
  | wire : WireResponse → RouteResult
  | matched : FunctionDefM → RouteResult

/-- Routing prelude of buildAzureFunctionsRouter.handle: extract the function
name from the path, reject non-POST methods with 405, answer 404 with the
sorted known names when no function matches, else match the descriptor. -/
def handleRoute (m : List (String × FunctionDefM)) (method pathname : String) : RouteResult :=
  let fnName := extractFunctionName pathname
  if method ≠ "POST" then .wire (methodNotAllowedResponse method pathname)
  else
    match jsMapGet m fnName with
    | some fn => .matched fn
    | none => .wire (notFoundResponse pathname (sortStrings (jsMapKeys m)))

/-! Helper lemmas about the byte-limited reader loop. -/

lemma readBytesGo_ok (M : Nat) (what : String) :
    ∀ (chunks : List (List Nat)) (total : Nat),
      total + (chunks.map List.length).sum ≤ M →
      readBytesGo chunks M total what = .ok chunks.flatten := by
  intro chunks
  induction chunks with
  | nil => intro total _; rfl
  | cons c rest ih =>
      intro total h
      simp only [List.map_cons, List.sum_cons] at h
      simp only [readBytesGo]
      rw [if_neg (by omega)]
      rw [ih (total + c.length) (by omega)]
      rfl

lemma readBytesGo_err (M : Nat) (what : String) :
    ∀ (chunks : List (List Nat)) (total : Nat),
      total ≤ M → M < total + (chunks.map List.length).sum →
      readBytesGo chunks M total what =
        .error (AppError.makeDetails .BAD_REQUEST (tooLargeMsg what M) (maxBytesDetails M)) := by
  intro chunks
  induction chunks with
  | nil =>
      intro total h1 h2
      simp only [List.map_nil, List.sum_nil] at h2
      omega
  | cons c rest ih =>
      intro total h1 h2
      simp only [List.map_cons, List.sum_cons] at h2
      simp only [readBytesGo]
      by_cases hgt : total + c.length > M
      · rw [if_pos hgt]
      · rw [if_neg hgt]
        rw [ih (total + c.length) (by omega) (by omega)]
        rfl

lemma retainedTotals_le (M : Nat) :
    ∀ (chunks : List (List Nat)) (total : Nat), total ≤ M →
      ∀ t ∈ retainedTotals chunks M total, t ≤ M := by
  intro chunks
  induction chunks with
  | nil => intro total _ t ht; simp [retainedTotals] at ht
  | cons c rest ih =>
      intro total h t ht
      simp only [retainedTotals] at ht
      by_cases hgt : total + c.length > M
      · rw [if_pos hgt] at ht; simp at ht
      · rw [if_neg hgt] at ht
        rcases List.mem_cons.mp ht with rfl | hmem
        · omega
        · exact ih (total + c.length) (by omega) t hmem

/-- C6: for a body stream of total size N and a ceiling M with M < N, the
byte-limited read fails with a BAD_REQUEST error whose details carry
maxBytes = M; for N ≤ M it succeeds returning all N bytes; and the total size
of the retained chunks never exceeds M at any point of the read. -/
theorem readStreamBytesLimited_ceiling (chunks : List (List Nat)) (M : Nat) (what : String) :
    (M < (chunks.map List.length).sum →
      readStreamBytesLimited chunks M what =
        .error (AppError.makeDetails .BAD_REQUEST (tooLargeMsg what M) (maxBytesDetails M))) ∧
    ((chunks.map List.length).sum ≤ M →
      readStreamBytesLimited chunks M what = .ok chunks.flatten) ∧
    (∀ t ∈ retainedTotals chunks M 0, t ≤ M) := by
  refine ⟨fun h => ?_, fun h => ?_, ?_⟩
  · exact readBytesGo_err M what chunks 0 (Nat.zero_le M) (by omega)
  · exact readBytesGo_ok M what chunks 0 (by omega)
  · exact retainedTotals_le M chunks 0 (Nat.zero_le M)

/-- Witness for C6: a three-byte stream against a two-byte ceiling fails with
the BAD_REQUEST maxBytes error while the retained buffer stays within the
ceiling; the same stream against a three-byte ceiling is returned whole. -/
theorem readStreamBytesLimited_ceiling_witness :
    readStreamBytesLimited [[0, 1], [2]] 2 "stream" =
      .error (AppError.makeDetails .BAD_REQUEST (tooLargeMsg "stream" 2) (maxBytesDetails 2)) ∧
    (∀ t ∈ retainedTotals [[0, 1], [2]] 2 0, t ≤ 2) ∧
    readStreamBytesLimited [[0, 1], [2]] 3 "stream" = .ok [0, 1, 2] :=
  ⟨(readStreamBytesLimited_ceiling [[0, 1], [2]] 2 "stream").1 (by decide),
   (readStreamBytesLimited_ceiling [[0, 1], [2]] 2 "stream").2.2,
   (readStreamBytesLimited_ceiling [[0, 1], [2]] 3 "stream").2.1 (by decide)⟩

/-- C7: invokeResponseFromHttpResponse places the encoded HTTP response under
ReturnValue (and no Outputs) exactly when the output binding name is the
"$return" sentinel, and under Outputs at exactly that name (and no
ReturnValue) otherwise; the two slots are never populated simultaneously. -/
theorem invokeResponseFromHttpResponse_slots (name : String) (res : ResponseM) (M : Nat)
    (h : AzureHttpResponseData) (henc : toAzureHttpResponseData res M = .ok h) :
    (name = "$return" →
      invokeResponseFromHttpResponse name res M =
        .ok ⟨none, none, some (azureHttpResponseDataJson h)⟩) ∧
    (name ≠ "$return" →
      invokeResponseFromHttpResponse name res M =
        .ok ⟨some [(name, azureHttpResponseDataJson h)], none, none⟩) := by
  constructor
  · intro hn
    simp [invokeResponseFromHttpResponse, henc, hn, Except.map]
  · intro hn
    simp [invokeResponseFromHttpResponse, henc, hn, Except.map]

/-- Witness for C7: a bodyless bare response encodes into the Outputs slot
under a plain name, and into ReturnValue under the sentinel. -/
theorem invokeResponseFromHttpResponse_slots_witness :
    invokeResponseFromHttpResponse "out1" ⟨200, [], none⟩ 10 =
      .ok ⟨some [("out1", azureHttpResponseDataJson ⟨200, none, none⟩)], none, none⟩ ∧
    invokeResponseFromHttpResponse "$return" ⟨200, [], none⟩ 10 =
      .ok ⟨none, none, some (azureHttpResponseDataJson ⟨200, none, none⟩)⟩ :=
  ⟨(invokeResponseFromHttpResponse_slots "out1" ⟨200, [], none⟩ 10 ⟨200, none, none⟩ rfl).2
      (by decide),
   (invokeResponseFromHttpResponse_slots "$return" ⟨200, [], none⟩ 10 ⟨200, none, none⟩ rfl).1 rfl⟩

/-- C5 (amended): over header entries whose names all satisfy the token
grammar, if some entry other than Set-Cookie carries a value with a character
below 0x20 or at least 0x7F, encoding fails with an INTERNAL error whose
message names an offending header and the code of the offending character;
if every non-Set-Cookie entry is safe, encoding succeeds and emits exactly
the non-Set-Cookie entries unchanged. -/
theorem headersToAzure_safety (hs : List (String × String))
    (hnames : ∀ p ∈ hs, isTokenName p.1 = true) :
    ((∃ p ∈ hs, strToLower p.1 ≠ "set-cookie" ∧ ∃ c ∈ p.2.data, unsafeHeaderValueChar c = true) →
      ∃ k v c, (k, v) ∈ hs ∧ strToLower k ≠ "set-cookie" ∧ c ∈ v.data ∧
        unsafeHeaderValueChar c = true ∧
        headersToAzure hs = .error (AppError.make .INTERNAL (unsafeHeaderValueMsg k c.toNat))) ∧
    ((∀ p ∈ hs, strToLower p.1 ≠ "set-cookie" → ∀ c ∈ p.2.data, unsafeHeaderValueChar c = false) →
      headersToAzure hs = .ok (hs.filter (fun p => !(strToLower p.1 == "set-cookie")))) := by
  induction hs with
  | nil =>
      constructor
      · rintro ⟨p, hp, _⟩; cases hp
      · intro _; rfl
  | cons q rest ih =>
      obtain ⟨k, v⟩ := q
      have hnames' : ∀ p ∈ rest, isTokenName p.1 = true :=
        fun p hp => hnames p (List.mem_cons_of_mem _ hp)
      obtain ⟨ih1, ih2⟩ := ih hnames'
      constructor
      · rintro ⟨p, hp, hpc, c, hc, hcu⟩
        by_cases hsk : strToLower k = "set-cookie"
        · have hprest : p ∈ rest := by
            rcases List.mem_cons.mp hp with rfl | hmem
            · exact absurd hsk hpc
            · exact hmem
          obtain ⟨k', v', c', hmem, hsk', hc', hcu', herr⟩ :=
            ih1 ⟨p, hprest, hpc, c, hc, hcu⟩
          refine ⟨k', v', c', List.mem_cons_of_mem _ hmem, hsk', hc', hcu', ?_⟩
          simp only [headersToAzure]
          rw [if_pos hsk]
          exact herr
        · have htok : isTokenName k = true := hnames (k, v) (List.mem_cons_self _ _)
          cases hfind : v.data.find? unsafeHeaderValueChar with
          | some c0 =>
              refine ⟨k, v, c0, List.mem_cons_self _ _, hsk,
                List.mem_of_find?_eq_some hfind, List.find?_some hfind, ?_⟩
              simp only [headersToAzure]
              rw [if_neg hsk]
              simp only [htok, Bool.not_true, if_false]
              rw [hfind]
              simp
          | none =>
              have hprest : p ∈ rest := by
                rcases List.mem_cons.mp hp with rfl | hmem
                · exact absurd hcu (by simpa using List.find?_eq_none.mp hfind c hc)
                · exact hmem
              obtain ⟨k', v', c', hmem, hsk', hc', hcu', herr⟩ :=
                ih1 ⟨p, hprest, hpc, c, hc, hcu⟩
              refine ⟨k', v', c', List.mem_cons_of_mem _ hmem, hsk', hc', hcu', ?_⟩
              simp only [headersToAzure]
              rw [if_neg hsk]
              simp only [htok, Bool.not_true, if_false]
              rw [hfind, herr]
              rfl
      · intro hsafe
        have hsafe' : ∀ p ∈ rest, strToLower p.1 ≠ "set-cookie" →
            ∀ c ∈ p.2.data, unsafeHeaderValueChar c = false :=
          fun p hp => hsafe p (List.mem_cons_of_mem _ hp)
        by_cases hsk : strToLower k = "set-cookie"
        · simp only [headersToAzure]
          rw [if_pos hsk, ih2 hsafe', List.filter_cons]
          simp [hsk]
        · have htok : isTokenName k = true := hnames (k, v) (List.mem_cons_self _ _)
          have hfind : v.data.find? unsafeHeaderValueChar = none :=
            List.find?_eq_none.mpr (fun c hc => by
              simp [hsafe (k, v) (List.mem_cons_self _ _) hsk c hc])
          simp only [headersToAzure]
          rw [if_neg hsk]
          simp only [htok, Bool.not_true, if_false]
          rw [hfind, ih2 hsafe', List.filter_cons]
          simp [hsk, Except.map]

/-- Witness for C5: a token-named header with a 0x01 character in its value
makes encoding fail with the INTERNAL error naming the header and the code. -/
theorem headersToAzure_safety_witness :
    ∃ k v c, ((k, v) ∈ ([("X-Bad", "a\x01b")] : List (String × String))) ∧
      strToLower k ≠ "set-cookie" ∧ c ∈ v.data ∧ unsafeHeaderValueChar c = true ∧
      headersToAzure [("X-Bad", "a\x01b")] =
        .error (AppError.make .INTERNAL (unsafeHeaderValueMsg k c.toNat)) :=
  (headersToAzure_safety [("X-Bad", "a\x01b")] (by decide)).1 (by decide)

/-- Counterexample for C5 as stated: a Set-Cookie header whose value contains
an unsafe character (0x01) is silently skipped rather than making encoding
fail, so encoding succeeds with an empty map. -/
theorem headersToAzure_skips_unsafe_set_cookie :
    headersToAzure [("Set-Cookie", "a\x01b")] = .ok [] ∧
    (∃ c ∈ ("a\x01b" : String).data, unsafeHeaderValueChar c = true) :=
  ⟨rfl, by decide⟩

/-! Helper lemmas about binding indexing. -/

lemma findDupName_eq_none :
    ∀ (bs : List Binding) (seen : List String), (bs.map Binding.name).Nodup →
      (∀ b ∈ bs, b.name ∉ seen) → findDupName bs seen = none := by
  intro bs
  induction bs with
  | nil => intro seen _ _; rfl
  | cons b rest ih =>
      intro seen hnd hsn
      simp only [List.map_cons, List.nodup_cons] at hnd
      simp only [findDupName]
      rw [if_neg (hsn b (List.mem_cons_self b rest))]
      apply ih (b.name :: seen) hnd.2
      intro b' hb'
      simp only [List.mem_cons]
      push_neg
      refine ⟨fun heq => hnd.1 (heq ▸ List.mem_map_of_mem Binding.name hb'), ?_⟩
      exact hsn b' (List.mem_cons_of_mem _ hb')

lemma trigger_filter_nil_of_inputs_nil {bs : List Binding}
    (hin : bs.filter (fun x => x.direction == .inDir) = []) :
    bs.filter isLikelyTriggerBinding = [] := by
  rw [List.filter_eq_nil_iff]
  intro a ha hla
  have hdir : (a.direction == Direction.inDir) = true := by
    simp only [isLikelyTriggerBinding, Bool.and_eq_true] at hla
    exact hla.1
  exact List.filter_eq_nil_iff.mp hin a ha hdir

/-- C1 (amended): for every non-empty binding list with pairwise-distinct
binding names, indexBindings enforces the trigger rules: two or more bindings
with direction "in" and a type ending in "Trigger" (case-insensitively) make
definition fail with a DEFINITION error whose details list all offending
binding types; exactly one such candidate becomes the descriptor's trigger;
with none, the first "in"-direction binding becomes the trigger; and with no
"in"-direction binding at all, definition fails with a DEFINITION error. -/
theorem indexBindings_trigger_selection (bs : List Binding) (_hne : bs ≠ [])
    (hnodup : (bs.map Binding.name).Nodup) :
    (2 ≤ (bs.filter isLikelyTriggerBinding).length →
      indexBindings bs = .error (AppError.makeDetails .DEFINITION
        (triggerCountMsg (bs.filter isLikelyTriggerBinding).length)
        (triggerTypesDetails (bs.filter isLikelyTriggerBinding)))) ∧
    (∀ c, bs.filter isLikelyTriggerBinding = [c] →
      ∃ idx, indexBindings bs = .ok idx ∧ idx.trigger = c) ∧
    (∀ b rest, bs.filter isLikelyTriggerBinding = [] →
      bs.filter (fun x => x.direction == .inDir) = b :: rest →
      ∃ idx, indexBindings bs = .ok idx ∧ idx.trigger = b) ∧
    (bs.filter (fun x => x.direction == .inDir) = [] →
      ∃ e, indexBindings bs = .error e ∧ e.code = .DEFINITION) := by
  have hdup : findDupName bs [] = none :=
    findDupName_eq_none bs [] hnodup (by simp)
  refine ⟨fun h2 => ?_, fun c hc => ?_, fun b rest hc hin => ?_, fun hin => ?_⟩
  · simp only [indexBindings, hdup]
    rw [if_pos (by omega)]
  · simp only [indexBindings, hdup, hc, List.length_cons, List.length_nil, List.head?_cons,
      Option.some_orElse]
    rw [if_neg (by omega)]
    exact ⟨_, rfl, rfl⟩
  · simp only [indexBindings, hdup, hc, hin, List.length_nil, List.head?_nil, List.head?_cons,
      Option.none_orElse]
    rw [if_neg (by omega)]
    exact ⟨_, rfl, rfl⟩
  · have hc := trigger_filter_nil_of_inputs_nil hin
    simp only [indexBindings, hdup, hc, hin, List.length_nil, List.head?_nil,
      Option.none_orElse]
    rw [if_neg (by omega)]
    exact ⟨_, rfl, rfl⟩

/-- Witness for C1: a single queueTrigger input binding alongside an output
binding is inferred as the trigger. -/
theorem indexBindings_trigger_selection_witness :
    ∃ idx, indexBindings [⟨"item", "queueTrigger", .inDir⟩, ⟨"res", "http", .outDir⟩] =
        .ok idx ∧ idx.trigger = ⟨"item", "queueTrigger", .inDir⟩ :=
  (indexBindings_trigger_selection _ (by decide) (by decide)).2.1 _ (by decide)

/-- Counterexample for C1 as stated: two in-direction *Trigger bindings that
share a name fail with the duplicate-name DEFINITION error, whose details are
absent rather than listing the offending binding types. -/
theorem indexBindings_duplicate_name_masks_trigger_details :
    indexBindings [⟨"a", "queueTrigger", .inDir⟩, ⟨"a", "blobTrigger", .inDir⟩] =
      .error (AppError.make .DEFINITION (duplicateNameMsg "a")) ∧
    2 ≤ (([⟨"a", "queueTrigger", .inDir⟩, ⟨"a", "blobTrigger", .inDir⟩] : List Binding).filter
        isLikelyTriggerBinding).length ∧
    (AppError.make .DEFINITION (duplicateNameMsg "a")).details = none :=
  ⟨rfl, by decide, rfl⟩

lemma indexBindings_ok_ne_nil {bs : List Binding} {idx : FunctionBindingsIndex}
    (h : indexBindings bs = .ok idx) : bs ≠ [] := by
  intro hbs
  subst hbs
  simp [indexBindings, findDupName] at h

/-- C2 (amended): provided the function dir normalizes and the binding list
passes the generic index validation (unique names, at most one *Trigger
candidate, an inferable trigger), defineHttpFunction fails with a DEFINITION
error naming the actual count whenever the httpTrigger-binding count differs
from one, then whenever the http-output-binding count differs from one, and
with exactly one of each it succeeds recording their names as the trigger
name and output name. -/
theorem defineHttpFunction_arity (dirRaw d : String) (bs : List Binding)
    (idx : FunctionBindingsIndex)
    (hdir : normalizeFunctionDir dirRaw = .ok d)
    (hidx : indexBindings bs = .ok idx) :
    ((bs.filter isHttpTriggerBinding).length ≠ 1 →
      defineHttpFunction dirRaw bs = .error (AppError.make .DEFINITION
        (httpTriggerCountMsg d (bs.filter isHttpTriggerBinding).length))) ∧
    ((bs.filter isHttpTriggerBinding).length = 1 →
      (bs.filter isHttpOutputBinding).length ≠ 1 →
      defineHttpFunction dirRaw bs = .error (AppError.make .DEFINITION
        (httpOutCountMsg d (bs.filter isHttpOutputBinding).length))) ∧
    (∀ t o, bs.filter isHttpTriggerBinding = [t] → bs.filter isHttpOutputBinding = [o] →
      defineHttpFunction dirRaw bs = .ok ⟨d, idx, t.name, o.name⟩) := by
  have hne := indexBindings_ok_ne_nil hidx
  have hemp : bs.isEmpty = false := by
    cases bs with
    | nil => exact absurd rfl hne
    | cons _ _ => rfl
  refine ⟨fun h1 => ?_, fun h1 h2 => ?_, fun t o ht ho => ?_⟩
  · simp only [defineHttpFunction, hdir, hemp, hidx, Bool.false_eq_true, if_false]
    rw [if_pos h1]
  · simp only [defineHttpFunction, hdir, hemp, hidx, Bool.false_eq_true, if_false]
    rw [if_neg (by omega), if_pos h2]
  · have h1 : (bs.filter isHttpTriggerBinding).length = 1 := by rw [ht]; rfl
    have h2 : (bs.filter isHttpOutputBinding).length = 1 := by rw [ho]; rfl
    simp only [defineHttpFunction, hdir, hemp, hidx, Bool.false_eq_true, if_false]
    rw [if_neg (by omega), if_neg (by omega), ht, ho]
    rfl

/-- Witness for C2: one httpTrigger plus one http output binding define an
HTTP function recording "req" as the trigger name and "res" as the output
name. -/
theorem defineHttpFunction_arity_witness :
    defineHttpFunction "fn" [⟨"req", "httpTrigger", .inDir⟩, ⟨"res", "http", .outDir⟩] =
      .ok ⟨"fn",
        ⟨[⟨"req", "httpTrigger", .inDir⟩, ⟨"res", "http", .outDir⟩],
         ⟨"req", "httpTrigger", .inDir⟩,
         [⟨"req", "httpTrigger", .inDir⟩],
         [⟨"res", "http", .outDir⟩],
         [("req", ⟨"req", "httpTrigger", .inDir⟩), ("res", ⟨"res", "http", .outDir⟩)],
         [("httpTrigger", [⟨"req", "httpTrigger", .inDir⟩]), ("http", [⟨"res", "http", .outDir⟩])]⟩,
        "req", "res"⟩ :=
  (defineHttpFunction_arity "fn" "fn"
      [⟨"req", "httpTrigger", .inDir⟩, ⟨"res", "http", .outDir⟩] _ rfl rfl).2.2
    ⟨"req", "httpTrigger", .inDir⟩ ⟨"res", "http", .outDir⟩ (by decide) (by decide)

/-- Counterexample for C2 as stated: a binding list with exactly one
httpTrigger binding and exactly one http output binding still fails when a
further queueTrigger input binding is present, because the generic
trigger-candidate check rejects two *Trigger bindings first. -/
theorem defineHttpFunction_fails_despite_unique_http_bindings :
    defineHttpFunction "fn" [⟨"req", "httpTrigger", .inDir⟩, ⟨"res", "http", .outDir⟩,
        ⟨"item", "queueTrigger", .inDir⟩] =
      .error (AppError.makeDetails .DEFINITION (triggerCountMsg 2)
        (triggerTypesDetails
          [⟨"req", "httpTrigger", .inDir⟩, ⟨"item", "queueTrigger", .inDir⟩])) ∧
    (([⟨"req", "httpTrigger", .inDir⟩, ⟨"res", "http", .outDir⟩,
        ⟨"item", "queueTrigger", .inDir⟩] : List Binding).filter
      isHttpTriggerBinding).length = 1 ∧
    (([⟨"req", "httpTrigger", .inDir⟩, ⟨"res", "http", .outDir⟩,
        ⟨"item", "queueTrigger", .inDir⟩] : List Binding).filter
      isHttpOutputBinding).length = 1 :=
  ⟨rfl, by decide, by decide⟩

/-! Helper lemmas about character-level string manipulation. -/

lemma startsWithChars_iff (pat : List Char) :
    ∀ l, startsWithChars pat l = true ↔ pat <+: l := by
  induction pat with
  | nil => intro l; simp [startsWithChars, List.nil_prefix]
  | cons p ps ih =>
      intro l
      cases l with
      | nil => simp [startsWithChars, List.prefix_nil]
      | cons c cs => simp [startsWithChars, ih, List.cons_prefix_cons]

lemma hasInfixChars_iff (pat : List Char) :
    ∀ l, hasInfixChars pat l = true ↔ pat <:+: l := by
  intro l
  induction l with
  | nil =>
      simp only [hasInfixChars, startsWithChars_iff, List.infix_nil, List.prefix_nil]
  | cons c cs ih =>
      simp [hasInfixChars, startsWithChars_iff, ih, List.infix_cons_iff]

lemma mem_dropWhile_of_mem {p : Char → Bool} {c : Char} (hp : p c = false) :
    ∀ {l : List Char}, c ∈ l → c ∈ l.dropWhile p := by
  intro l
  induction l with
  | nil => intro h; cases h
  | cons a as ih =>
      intro h
      rw [List.dropWhile_cons]
      by_cases ha : p a = true
      · rw [if_pos ha]
        rcases List.mem_cons.mp h with rfl | hmem
        · rw [hp] at ha; cases ha
        · exact ih hmem
      · rw [if_neg ha]
        exact h

lemma dropWhile_head_pred_false {p : Char → Bool} :
    ∀ {l : List Char} {c t}, l.dropWhile p = c :: t → p c = false := by
  intro l
  induction l with
  | nil => intro c t h; cases h
  | cons a as ih =>
      intro c t h
      rw [List.dropWhile_cons] at h
      by_cases ha : p a = true
      · rw [if_pos ha] at h; exact ih h
      · rw [if_neg ha] at h
        cases h
        exact Bool.not_eq_true _ ▸ (by simpa using ha)

lemma strip_right_prefix (p : Char → Bool) (m : List Char) :
    (m.reverse.dropWhile p).reverse <+: m := by
  have h : ((m.reverse.dropWhile p).reverse).reverse <:+ m.reverse := by
    simpa using @List.dropWhile_suffix Char m.reverse p
  exact List.reverse_suffix.mp h

lemma stripChars_mem {p : Char → Bool} {c : Char} (hp : p c = false) {l : List Char}
    (h : c ∈ l) : c ∈ ((l.dropWhile p).reverse.dropWhile p).reverse := by
  rw [List.mem_reverse]
  exact mem_dropWhile_of_mem hp (by rw [List.mem_reverse]; exact mem_dropWhile_of_mem hp h)

lemma stripChars_within (p : Char → Bool) (l : List Char) :
    ((l.dropWhile p).reverse.dropWhile p).reverse <:+: l :=
  List.infix_iff_prefix_suffix.mpr
    ⟨l.dropWhile p, strip_right_prefix p (l.dropWhile p), List.dropWhile_suffix p⟩

lemma dotdot_infix_dropWhile {p : Char → Bool} (hp : p '.' = false) :
    ∀ {l : List Char}, ['.', '.'] <:+: l → ['.', '.'] <:+: l.dropWhile p := by
  intro l
  induction l with
  | nil => intro h; simp [List.infix_nil] at h
  | cons c cs ih =>
      intro h
      rw [List.dropWhile_cons]
      by_cases hc : p c = true
      · rw [if_pos hc]
        rcases List.infix_cons_iff.mp h with hpre | hinf
        · exfalso
          rcases List.cons_prefix_cons.mp hpre with ⟨heq, _⟩
          rw [← heq] at hc
          rw [hp] at hc
          cases hc
        · exact ih hinf
      · rw [if_neg hc]
        exact h

lemma dotdot_infix_strip {p : Char → Bool} (hp : p '.' = false) {l : List Char}
    (h : ['.', '.'] <:+: l) :
    ['.', '.'] <:+: ((l.dropWhile p).reverse.dropWhile p).reverse := by
  have h1 := dotdot_infix_dropWhile hp h
  have h2 : ['.', '.'] <:+: (l.dropWhile p).reverse := by
    have h2' := List.reverse_infix.mpr h1
    simpa using h2'
  have h3 := dotdot_infix_dropWhile hp h2
  have h4 : (['.', '.'] : List Char).reverse <:+: ((l.dropWhile p).reverse.dropWhile p).reverse.reverse := by
    simpa using h3
  exact List.reverse_infix.mp h4

lemma dotdot_infix_map (l : List Char)
    (h : ['.', '.'] <:+: l) :
    ['.', '.'] <:+: l.map (fun c => if c = '\\' then '/' else c) := by
  obtain ⟨u, v, huv⟩ := h
  exact ⟨u.map (fun c => if c = '\\' then '/' else c),
    v.map (fun c => if c = '\\' then '/' else c), by rw [← huv]; simp⟩

lemma dotdot_infix_of_map {l : List Char}
    (h : ['.', '.'] <:+: l.map (fun c => if c = '\\' then '/' else c)) :
    ['.', '.'] <:+: l := by
  induction l with
  | nil => simp [List.infix_nil] at h
  | cons c cs ih =>
      rw [List.map_cons] at h
      rcases List.infix_cons_iff.mp h with hpre | hinf
      · rcases List.cons_prefix_cons.mp hpre with ⟨h1, h2⟩
        have hc : c = '.' := by
          by_cases hcc : c = '\\'
          · rw [hcc] at h1; simp at h1
          · rw [if_neg hcc] at h1; exact h1.symm
        cases cs with
        | nil => simp [List.prefix_nil] at h2
        | cons c2 cs2 =>
            rw [List.map_cons] at h2
            rcases List.cons_prefix_cons.mp h2 with ⟨h3, _⟩
            have hc2 : c2 = '.' := by
              by_cases hcc : c2 = '\\'
              · rw [hcc] at h3; simp at h3
              · rw [if_neg hcc] at h3; exact h3.symm
            subst hc; subst hc2
            exact ⟨[], cs2, rfl⟩
      · exact List.infix_cons (ih hinf)

lemma posix_char_ne_backslash (c : Char) :
    (if c = '\\' then '/' else c) ≠ '\\' := by
  by_cases hc : c = '\\'
  · rw [if_pos hc]; decide
  · rw [if_neg hc]; exact hc

/-! Facts connecting normalizeFunctionDir's checks on the normalized form to
the raw input name. -/

lemma dotdot_norm_iff (s : String) :
    ['.', '.'] <:+: (stripSlashes (toPosixPath s)).data ↔ ['.', '.'] <:+: s.data := by
  constructor
  · intro h
    have h1 : (stripSlashes (toPosixPath s)).data <:+: (toPosixPath s).data :=
      stripChars_within _ _
    have h2 : ['.', '.'] <:+: (toPosixPath s).data := h.trans h1
    exact dotdot_infix_of_map h2
  · intro h
    exact dotdot_infix_strip (by decide) (dotdot_infix_map s.data h)

lemma newline_norm_iff (s : String) :
    (stripSlashes (toPosixPath s)).data.any (fun c => c = '\n' || c = '\r') =
      s.data.any (fun c => c = '\n' || c = '\r') := by
  rcases hb : s.data.any (fun c => c = '\n' || c = '\r') with _ | _
  · rw [List.any_eq_false] at hb
    rw [List.any_eq_false]
    intro c hc
    have h1 : c ∈ (toPosixPath s).data :=
      (stripChars_within _ _).sublist.subset hc
    simp only [toPosixPath, List.mem_map] at h1
    obtain ⟨a, ha, hfa⟩ := h1
    have := hb a ha
    intro hcontra
    apply this
    rcases Bool.or_eq_true _ _ |>.mp hcontra with h | h
    · have hc' : c = '\n' := by simpa using h
      subst hc'
      by_cases haa : a = '\\'
      · rw [haa] at hfa; simp at hfa
      · rw [if_neg haa] at hfa; simp [hfa]
    · have hc' : c = '\r' := by simpa using h
      subst hc'
      by_cases haa : a = '\\'
      · rw [haa] at hfa; simp at hfa
      · rw [if_neg haa] at hfa; simp [hfa]
  · rw [List.any_eq_true] at hb
    obtain ⟨c, hc, hcp⟩ := hb
    rw [List.any_eq_true]
    refine ⟨c, ?_, hcp⟩
    have hc1 : c ≠ '\\' := by
      rcases Bool.or_eq_true _ _ |>.mp hcp with h | h
      · have : c = '\n' := by simpa using h
        subst this; decide
      · have : c = '\r' := by simpa using h
        subst this; decide
    have hc2 : (fun x => decide (x = '/')) c = false := by
      rcases Bool.or_eq_true _ _ |>.mp hcp with h | h
      · have : c = '\n' := by simpa using h
        subst this; decide
      · have : c = '\r' := by simpa using h
        subst this; decide
    have hmem : c ∈ (toPosixPath s).data := by
      simp only [toPosixPath, List.mem_map]
      exact ⟨c, hc, by rw [if_neg hc1]⟩
    exact stripChars_mem hc2 hmem

lemma strTrim_ne_empty_of_dotdot {s : String} (h : ['.', '.'] <:+: s.data) :
    strTrim s ≠ "" := by
  have hdot : '.' ∈ s.data := h.sublist.subset (by decide)
  have hmem : '.' ∈ (strTrim s).data := stripChars_mem (by decide) hdot
  intro he
  rw [he] at hmem
  cases hmem

/-- C8 (amended): normalizeFunctionDir converts backslashes to forward
slashes and strips leading and trailing slashes rather than rejecting them;
it fails with a DEFINITION error when the stripped form is empty or
whitespace-only, when the name contains the substring "..", or when the name
contains a newline or carriage return (and the previous conditions do not
hold); otherwise it succeeds, returning the normalized form, which is
non-empty, contains no backslash, and does not start with a slash. -/
theorem normalizeFunctionDir_validation (s : String) :
    (strTrim (stripSlashes (toPosixPath s)) = "" →
      normalizeFunctionDir s = .error (AppError.make .DEFINITION emptyDirMsg)) ∧
    (hasInfixChars "..".data s.data = true →
      normalizeFunctionDir s = .error (AppError.make .DEFINITION (dotdotDirMsg s))) ∧
    (hasInfixChars "..".data s.data = false →
      strTrim (stripSlashes (toPosixPath s)) ≠ "" →
      s.data.any (fun c => c = '\n' || c = '\r') = true →
      normalizeFunctionDir s = .error (AppError.make .DEFINITION (newlineDirMsg s))) ∧
    (hasInfixChars "..".data s.data = false →
      strTrim (stripSlashes (toPosixPath s)) ≠ "" →
      s.data.any (fun c => c = '\n' || c = '\r') = false →
      normalizeFunctionDir s = .ok (stripSlashes (toPosixPath s)) ∧
      stripSlashes (toPosixPath s) ≠ "" ∧
      (∀ c ∈ (stripSlashes (toPosixPath s)).data, c ≠ '\\') ∧
      (stripSlashes (toPosixPath s)).data.head? ≠ some '/') := by
  refine ⟨fun htrim => ?_, fun hdd => ?_, fun hdd htrim hnl => ?_, fun hdd htrim hnl => ?_⟩
  · simp only [normalizeFunctionDir]
    rw [if_pos htrim]
  · have hdds : ['.', '.'] <:+: s.data := (hasInfixChars_iff _ _).mp hdd
    have hddn : ['.', '.'] <:+: (stripSlashes (toPosixPath s)).data :=
      (dotdot_norm_iff s).mpr hdds
    have htrim := strTrim_ne_empty_of_dotdot hddn
    simp only [normalizeFunctionDir]
    rw [if_neg htrim, if_pos ((hasInfixChars_iff _ _).mpr hddn)]
  · have hddn : hasInfixChars "..".data (stripSlashes (toPosixPath s)).data = false := by
      rcases hx : hasInfixChars "..".data (stripSlashes (toPosixPath s)).data with _ | _
      · rfl
      · exfalso
        have := (dotdot_norm_iff s).mp ((hasInfixChars_iff _ _).mp hx)
        rw [(hasInfixChars_iff _ _).mpr this] at hdd
        cases hdd
    simp only [normalizeFunctionDir]
    rw [if_neg htrim, if_neg (by rw [hddn]; exact Bool.false_ne_true),
      if_pos (by rw [newline_norm_iff]; exact hnl)]
  · have hddn : hasInfixChars "..".data (stripSlashes (toPosixPath s)).data = false := by
      rcases hx : hasInfixChars "..".data (stripSlashes (toPosixPath s)).data with _ | _
      · rfl
      · exfalso
        have := (dotdot_norm_iff s).mp ((hasInfixChars_iff _ _).mp hx)
        rw [(hasInfixChars_iff _ _).mpr this] at hdd
        cases hdd
    refine ⟨?_, ?_, ?_, ?_⟩
    · simp only [normalizeFunctionDir]
      rw [if_neg htrim, if_neg (by rw [hddn]; exact Bool.false_ne_true),
        if_neg (by rw [newline_norm_iff, hnl]; exact Bool.false_ne_true)]
    · intro he
      apply htrim
      rw [he]
      rfl
    · intro c hc
      have h1 : c ∈ (toPosixPath s).data :=
        (stripChars_within _ _).sublist.subset hc
      simp only [toPosixPath, List.mem_map] at h1
      obtain ⟨a, _, hfa⟩ := h1
      rw [← hfa]
      exact posix_char_ne_backslash a
    · cases hd : (stripSlashes (toPosixPath s)).data with
      | nil => simp
      | cons c t =>
          have hpre : c :: t <+: (toPosixPath s).data.dropWhile (fun x => x = '/') := by
            rw [← hd]
            exact strip_right_prefix _ _
          obtain ⟨r, hr⟩ := hpre
          have hm : (toPosixPath s).data.dropWhile (fun x => x = '/') = c :: (t ++ r) := by
            rw [← hr]; simp
          have hcp : (fun x : Char => decide (x = '/')) c = false :=
            dropWhile_head_pred_false hm
          simp only [List.head?_cons, ne_eq, Option.some.injEq]
          intro hcc
          rw [hcc] at hcp
          simp at hcp

/-- Witness for C8: the name "api" passes all checks and normalizes to
itself, and a name containing ".." is rejected with the DEFINITION error. -/
theorem normalizeFunctionDir_validation_witness :
    (normalizeFunctionDir "api" = .ok (stripSlashes (toPosixPath "api")) ∧
      stripSlashes (toPosixPath "api") ≠ "" ∧
      (∀ c ∈ (stripSlashes (toPosixPath "api")).data, c ≠ '\\') ∧
      (stripSlashes (toPosixPath "api")).data.head? ≠ some '/') ∧
    normalizeFunctionDir "a..b" = .error (AppError.make .DEFINITION (dotdotDirMsg "a..b")) :=
  ⟨(normalizeFunctionDir_validation "api").2.2.2 (by decide) (by decide) (by decide),
   (normalizeFunctionDir_validation "a..b").2.1 (by decide)⟩

/-- Counterexample for C8 as stated: a name containing a backslash and a name
starting with a slash are both accepted (the backslash is converted to a
slash, the leading slash is stripped) instead of failing definition. -/
theorem normalizeFunctionDir_accepts_backslash_and_leading_slash :
    normalizeFunctionDir "a\\b" = .ok "a/b" ∧
    ("a\\b" : String).data.contains '\\' = true ∧
    normalizeFunctionDir "/x" = .ok "x" :=
  ⟨rfl, by decide, rfl⟩

/-! Helper lemmas about the router's name-keyed function map. -/

lemma jsMapSet_keys {m : List (String × FunctionDefM)} {k : String} {v : FunctionDefM} :
    ∀ q ∈ jsMapSet m k v, q.1 ∈ m.map Prod.fst ∨ q.1 = k := by
  intro q hq
  unfold jsMapSet at hq
  by_cases hany : m.any (fun p => p.1 = k) = true
  · rw [if_pos hany] at hq
    obtain ⟨p, hp, hpq⟩ := List.mem_map.mp hq
    by_cases hpk : p.1 = k
    · rw [if_pos hpk] at hpq
      right
      rw [← hpq]
    · rw [if_neg hpk] at hpq
      left
      rw [← hpq]
      exact List.mem_map_of_mem Prod.fst hp
  · rw [if_neg hany] at hq
    rcases List.mem_append.mp hq with hm | hk
    · left
      exact List.mem_map_of_mem Prod.fst hm
    · right
      simp only [List.mem_singleton] at hk
      rw [hk]

lemma buildMap_keys_mem_aux :
    ∀ (fns : List FunctionDefM) (m : List (String × FunctionDefM)),
      ∀ q ∈ fns.foldl (fun m fn => jsMapSet m fn.name fn) m,
        q.1 ∈ m.map Prod.fst ∨ q.1 ∈ fns.map FunctionDefM.name := by
  intro fns
  induction fns with
  | nil => intro m q hq; left; exact List.mem_map_of_mem Prod.fst hq
  | cons f rest ih =>
      intro m q hq
      rw [List.foldl_cons] at hq
      rcases ih (jsMapSet m f.name f) q hq with hkey | hrest
      · obtain ⟨q', hq', hq'e⟩ := List.mem_map.mp hkey
        rcases jsMapSet_keys q' hq' with hm | hf
        · exact Or.inl (hq'e ▸ hm)
        · exact Or.inr (by rw [List.map_cons, ← hq'e, hf]; exact List.mem_cons_self _ _)
      · exact Or.inr (by rw [List.map_cons]; exact List.mem_cons_of_mem _ hrest)

lemma jsMapGet_buildMap_none (fns : List FunctionDefM) (k : String)
    (h : ∀ fn ∈ fns, fn.name ≠ k) : jsMapGet (buildMap fns) k = none := by
  unfold jsMapGet
  rw [List.find?_eq_none.mpr]
  · rfl
  · intro q hq
    rcases buildMap_keys_mem_aux fns [] q hq with hm | hn
    · cases hm
    · obtain ⟨fn, hfn, hfq⟩ := List.mem_map.mp hn
      simp only [decide_eq_true_eq]
      rw [← hfq]
      exact h fn hfn

lemma buildMap_aux (fns : List FunctionDefM) :
    ∀ m, (∀ fn ∈ fns, ∀ p ∈ m, p.1 ≠ fn.name) → (fns.map FunctionDefM.name).Nodup →
      fns.foldl (fun m fn => jsMapSet m fn.name fn) m =
        m ++ fns.map (fun fn => (fn.name, fn)) := by
  induction fns with
  | nil => intro m _ _; simp
  | cons f rest ih =>
      intro m hdisj hnd
      simp only [List.map_cons, List.nodup_cons] at hnd
      have hset : jsMapSet m f.name f = m ++ [(f.name, f)] := by
        unfold jsMapSet
        rw [if_neg ?_]
        intro hany
        obtain ⟨p, hp, hpe⟩ := List.any_eq_true.mp hany
        exact hdisj f (List.mem_cons_self _ _) p hp (by simpa using hpe)
      rw [List.foldl_cons, hset, ih (m ++ [(f.name, f)]) ?_ hnd.2]
      · simp
      · intro g hg p hp
        rcases List.mem_append.mp hp with hpm | hpe
        · exact hdisj g (List.mem_cons_of_mem _ hg) p hpm
        · simp only [List.mem_singleton] at hpe
          rw [hpe]
          intro heq
          apply hnd.1
          have hfg : f.name = g.name := heq
          rw [hfg]
          exact List.mem_map_of_mem FunctionDefM.name hg

lemma buildMap_eq_of_nodup (fns : List FunctionDefM)
    (hnd : (fns.map FunctionDefM.name).Nodup) :
    buildMap fns = fns.map (fun fn => (fn.name, fn)) := by
  unfold buildMap
  rw [buildMap_aux fns [] (by simp) hnd]
  rfl

lemma jsMapKeys_buildMap (fns : List FunctionDefM)
    (hnd : (fns.map FunctionDefM.name).Nodup) :
    jsMapKeys (buildMap fns) = fns.map FunctionDefM.name := by
  rw [buildMap_eq_of_nodup fns hnd]
  unfold jsMapKeys
  simp

lemma find_pair (fns : List FunctionDefM) (fn : FunctionDefM) :
    (fns.map FunctionDefM.name).Nodup → fn ∈ fns →
      (fns.map (fun g => (g.name, g))).find? (fun p => p.1 = fn.name) =
        some (fn.name, fn) := by
  induction fns with
  | nil => intro _ h; cases h
  | cons f rest ih =>
      intro hnd hfn
      simp only [List.map_cons, List.nodup_cons] at hnd
      by_cases hf : f.name = fn.name
      · have hfeq : fn = f := by
          rcases List.mem_cons.mp hfn with rfl | hmem
          · rfl
          · exact absurd (hf ▸ List.mem_map_of_mem FunctionDefM.name hmem) hnd.1
        subst hfeq
        rw [List.map_cons, List.find?_cons_of_pos _ (by simp)]
      · have hmem : fn ∈ rest := by
          rcases List.mem_cons.mp hfn with rfl | hmem
          · exact absurd rfl hf
          · exact hmem
        rw [List.map_cons, List.find?_cons_of_neg _ (by simp [hf])]
        exact ih hnd.2 hmem

lemma jsMapGet_buildMap_of_mem (fns : List FunctionDefM)
    (hnd : (fns.map FunctionDefM.name).Nodup) (fn : FunctionDefM) (hfn : fn ∈ fns) :
    jsMapGet (buildMap fns) fn.name = some fn := by
  rw [buildMap_eq_of_nodup fns hnd]
  unfold jsMapGet
  rw [find_pair fns fn hnd hfn]
  rfl

/-- C9: for registries with distinct registered names, a POST request whose
first path segment matches no registered function name receives the 404
NotFound wire response whose knownFunctions list is exactly the registered
names in sorted order (a sorted permutation of them); and every POST request
whose first path segment equals a registered name resolves to that function's
descriptor. -/
theorem router_not_found_and_resolution (fns : List FunctionDefM)
    (hnodup : (fns.map FunctionDefM.name).Nodup) :
    (∀ pathname, extractFunctionName pathname ∉ fns.map FunctionDefM.name →
      handleRoute (buildMap fns) "POST" pathname =
        .wire (notFoundResponse pathname (sortStrings (fns.map FunctionDefM.name))) ∧
      (notFoundResponse pathname (sortStrings (fns.map FunctionDefM.name))).status = 404 ∧
      (sortStrings (fns.map FunctionDefM.name)).Perm (fns.map FunctionDefM.name) ∧
      (sortStrings (fns.map FunctionDefM.name)).Sorted (fun a b => a ≤ b)) ∧
    (∀ fn ∈ fns, ∀ pathname, extractFunctionName pathname = fn.name →
      handleRoute (buildMap fns) "POST" pathname = .matched fn) := by
  constructor
  · intro pathname hnm
    have hget : jsMapGet (buildMap fns) (extractFunctionName pathname) = none :=
      jsMapGet_buildMap_none _ _ (fun fn hfn heq => hnm (heq ▸ List.mem_map_of_mem _ hfn))
    refine ⟨?_, rfl, List.perm_insertionSort _ _, List.sorted_insertionSort _ _⟩
    simp only [handleRoute]
    rw [if_neg (by simp), hget, jsMapKeys_buildMap fns hnodup]
  · intro fn hfn pathname hext
    simp only [handleRoute]
    rw [if_neg (by simp), hext, jsMapGet_buildMap_of_mem fns hnodup fn hfn]

/-- Witness for C9: with only "echo" registered, POST /nope gets the 404
response listing the sorted names, and POST /echo/x resolves to the echo
descriptor. -/
theorem router_not_found_and_resolution_witness :
    handleRoute (buildMap [⟨"echo", FnKind.trigger, ""⟩]) "POST" "/nope" =
      .wire (notFoundResponse "/nope"
        (sortStrings (([⟨"echo", FnKind.trigger, ""⟩] : List FunctionDefM).map
          FunctionDefM.name))) ∧
    handleRoute (buildMap [⟨"echo", FnKind.trigger, ""⟩]) "POST" "/echo/x" =
      .matched ⟨"echo", FnKind.trigger, ""⟩ :=
  ⟨((router_not_found_and_resolution [⟨"echo", FnKind.trigger, ""⟩] (by decide)).1
      "/nope" (by decide)).1,
   (router_not_found_and_resolution [⟨"echo", FnKind.trigger, ""⟩] (by decide)).2
      ⟨"echo", FnKind.trigger, ""⟩ (by decide) "/echo/x" (by decide)⟩

lemma normalizeFunctionDir_ok_ne_empty {s d : String}
    (h : normalizeFunctionDir s = .ok d) : d ≠ "" := by
  intro hd
  subst hd
  simp only [normalizeFunctionDir] at h
  by_cases h1 : strTrim (stripSlashes (toPosixPath s)) = ""
  · rw [if_pos h1] at h; cases h
  · rw [if_neg h1] at h
    by_cases h2 : hasInfixChars "..".data (stripSlashes (toPosixPath s)).data = true
    · rw [if_pos h2] at h; cases h
    · rw [if_neg h2] at h
      by_cases h3 :
          (stripSlashes (toPosixPath s)).data.any (fun c => c = '\n' || c = '\r') = true
      · rw [if_pos h3] at h; cases h
      · rw [if_neg h3] at h
        apply h1
        rw [Except.ok.inj h]
        rfl

/-- C10: a POST request whose URL path consists only of slashes extracts the
empty function name, no registered descriptor can carry the empty name
(normalization rejects names that strip to nothing), and the router answers
with the 404 NotFound response. -/
theorem router_slash_only_path_not_found (fns : List FunctionDefM) (p : String)
    (hslash : ∀ c ∈ p.data, c = '/')
    (hnames : ∀ fn ∈ fns, ∃ s, normalizeFunctionDir s = .ok fn.name) :
    extractFunctionName p = "" ∧
    (∀ fn ∈ fns, fn.name ≠ "") ∧
    handleRoute (buildMap fns) "POST" p =
      .wire (notFoundResponse p (sortStrings (jsMapKeys (buildMap fns)))) := by
  have hext : extractFunctionName p = "" := by
    unfold extractFunctionName
    have hdrop : p.data.dropWhile (fun c => c = '/') = [] :=
      List.dropWhile_eq_nil_iff.mpr (fun x hx => by simp [hslash x hx])
    rw [hdrop]
    rfl
  have hne : ∀ fn ∈ fns, fn.name ≠ "" := by
    intro fn hfn
    obtain ⟨s, hs⟩ := hnames fn hfn
    exact normalizeFunctionDir_ok_ne_empty hs
  refine ⟨hext, hne, ?_⟩
  simp only [handleRoute]
  rw [if_neg (by simp), hext, jsMapGet_buildMap_none fns "" hne]

/-- Witness for C10: with "echo" registered under its normalized name, POST /
yields the 404 NotFound response and the extracted function name is empty. -/
theorem router_slash_only_path_not_found_witness :
    extractFunctionName "/" = "" ∧
    handleRoute (buildMap [⟨"echo", FnKind.trigger, ""⟩]) "POST" "/" =
      .wire (notFoundResponse "/"
        (sortStrings (jsMapKeys (buildMap [⟨"echo", FnKind.trigger, ""⟩])))) :=
  ⟨(router_slash_only_path_not_found [⟨"echo", FnKind.trigger, ""⟩] "/" (by decide)
      (fun fn hfn => by
        rcases List.mem_singleton.mp hfn with rfl
        exact ⟨"echo", rfl⟩)).1,
   (router_slash_only_path_not_found [⟨"echo", FnKind.trigger, ""⟩] "/" (by decide)
      (fun fn hfn => by
        rcases List.mem_singleton.mp hfn with rfl
        exact ⟨"echo", rfl⟩)).2.2⟩

/-! Helper lemmas about the error-encoding path of the router's catch clause. -/

lemma toAzureHttpResponseData_responseJson (body : Json) (status : Nat) (M : Nat)
    (hsz : (serializeJson body).utf8ByteSize ≤ M) :
    toAzureHttpResponseData (responseJson body status) M =
      .ok ⟨status, some [("content-type", "application/json")], some (serializeJson body)⟩ := by
  unfold toAzureHttpResponseData responseJson readStreamTextLimited
  simp only [readTextGo]
  rw [if_neg (by omega)]
  have hH : headersToAzure (mkHeaders [("content-type", "application/json")]) =
      .ok [("content-type", "application/json")] := rfl
  simp only [Except.map, hH, String.append_empty]
  simp

lemma httpInvokeErrorResponse_ok (outName : String) (err : Thrown) (M : Nat)
    (hsz : (serializeJson (errorPayloadJson (toErrorPayload err).body)).utf8ByteSize ≤ M) :
    httpInvokeErrorResponse outName err M = .ok ⟨200, invokeResponseJson
      (if outName = "$return" then
        ⟨none, none, some (azureHttpResponseDataJson
          ⟨(toErrorPayload err).status, some [("content-type", "application/json")],
           some (serializeJson (errorPayloadJson (toErrorPayload err).body))⟩)⟩
       else
        ⟨some [(outName, azureHttpResponseDataJson
          ⟨(toErrorPayload err).status, some [("content-type", "application/json")],
           some (serializeJson (errorPayloadJson (toErrorPayload err).body))⟩)],
         none, none⟩)⟩ := by
  simp only [httpInvokeErrorResponse, invokeResponseFromHttpResponse]
  rw [toAzureHttpResponseData_responseJson _ _ _ hsz]
  by_cases ho : outName = "$return"
  · simp only [Except.map, ho, if_pos]
  · simp only [Except.map, if_neg ho]

/-- C3 (amended): for every error thrown while handling a matched invocation,
a non-HTTP-shaped function always yields a returned wire response carrying
the error payload body at the payload's own status when that is at least 400
and at 500 otherwise (never below 400, never an escaping exception); an
HTTP-shaped function, provided the serialized error payload fits within the
configured response-body limit, yields wire status 200 with a result envelope
whose HTTP output binding (or ReturnValue slot, for the "$return" sentinel)
carries the encoded error response with the real error status inside. -/
theorem handleCaughtError_wire_behavior (fn : FunctionDefM) (err : Thrown) (M : Nat) :
    (fn.kind = .trigger →
      handleCaughtError fn err M =
        .ok ⟨if (toErrorPayload err).status ≥ 400 then (toErrorPayload err).status else 500,
             errorPayloadJson (toErrorPayload err).body⟩ ∧
      400 ≤ (if (toErrorPayload err).status ≥ 400 then (toErrorPayload err).status else 500)) ∧
    (fn.kind = .http →
      (serializeJson (errorPayloadJson (toErrorPayload err).body)).utf8ByteSize ≤ M →
      handleCaughtError fn err M = .ok ⟨200, invokeResponseJson
        (if fn.outName = "$return" then
          ⟨none, none, some (azureHttpResponseDataJson
            ⟨(toErrorPayload err).status, some [("content-type", "application/json")],
             some (serializeJson (errorPayloadJson (toErrorPayload err).body))⟩)⟩
         else
          ⟨some [(fn.outName, azureHttpResponseDataJson
            ⟨(toErrorPayload err).status, some [("content-type", "application/json")],
             some (serializeJson (errorPayloadJson (toErrorPayload err).body))⟩)],
           none, none⟩)⟩) := by
  obtain ⟨name, kind, out⟩ := fn
  constructor
  · intro hk
    simp only at hk
    subst hk
    refine ⟨rfl, ?_⟩
    by_cases h4 : (toErrorPayload err).status ≥ 400
    · rw [if_pos h4]; omega
    · rw [if_neg h4]; omega
  · intro hk hsz
    simp only at hk
    subst hk
    exact httpInvokeErrorResponse_ok out err M hsz

/-- Witness for C3: a generic thrown error on an HTTP-shaped function with
output binding "res" encodes, at the default 4 MiB limit, into a wire 200
whose Outputs slot carries the 500 INTERNAL payload; the same error on a
trigger function yields wire status 500 with the payload body. -/
theorem handleCaughtError_wire_behavior_witness :
    handleCaughtError ⟨"fn", FnKind.http, "res"⟩ (.other "boom") (4 * 1024 * 1024) =
      .ok ⟨200, invokeResponseJson ⟨some [("res", azureHttpResponseDataJson
        ⟨500, some [("content-type", "application/json")],
         some (serializeJson (errorPayloadJson ⟨.INTERNAL, "boom", none⟩))⟩)], none, none⟩⟩ ∧
    handleCaughtError ⟨"fn", FnKind.trigger, ""⟩ (.other "boom") (4 * 1024 * 1024) =
      .ok ⟨500, errorPayloadJson ⟨.INTERNAL, "boom", none⟩⟩ := by
  constructor
  · have h := (handleCaughtError_wire_behavior ⟨"fn", FnKind.http, "res"⟩ (.other "boom")
      (4 * 1024 * 1024)).2 rfl (by decide)
    simpa using h
  · have h := (handleCaughtError_wire_behavior ⟨"fn", FnKind.trigger, ""⟩ (.other "boom")
      (4 * 1024 * 1024)).1 rfl
    simpa using h.1

/-- Counterexample for C3 as stated: with the response-body limit configured
to one byte, an error thrown on an HTTP-shaped function does not produce a
wire 200 response; the error-encoding itself fails and the exception
propagates out of the catch clause. -/
theorem httpInvokeErrorResponse_oversize_propagates :
    handleCaughtError ⟨"fn", FnKind.http, "res"⟩ (.other "boom") 1 =
      .error (AppError.makeDetails .BAD_REQUEST (tooLargeMsg "HTTP response body" 1)
        (maxBytesDetails 1)) ∧
    1 < (serializeJson (errorPayloadJson (toErrorPayload (Thrown.other "boom")).body)).utf8ByteSize :=
  ⟨rfl, by decide⟩

/-- C4: encoding the structured response with headers Content-Type:
application/json, status 201 and body "\x7ba\x22:1\x7d" into the wire
HTTP-output shape preserves the status code, the header names and values
(under the Headers container's lowercase normalization) and the body bytes
exactly; decoding the encoded headers through the toDenoRequest Headers
expansion reproduces the original Headers container; the encoded shape never
contains set-cookie, and a Set-Cookie header on the source response is
dropped from the encoding while everything else is preserved. -/
theorem http_response_roundtrip_concrete :
    toAzureHttpResponseData ⟨201, mkHeaders [("Content-Type", "application/json")],
        some ["\x7b\"a\":1\x7d"]⟩ (4 * 1024 * 1024) =
      .ok ⟨201, some [("content-type", "application/json")], some "\x7b\"a\":1\x7d"⟩ ∧
    expandHeaders [("content-type", ["application/json"])] =
      mkHeaders [("Content-Type", "application/json")] ∧
    (([("content-type", "application/json")] : List (String × String)).all
      (fun p => !(p.1 == "set-cookie"))) = true ∧
    toAzureHttpResponseData ⟨201, mkHeaders [("Content-Type", "application/json"),
        ("Set-Cookie", "sid=1")], some ["\x7b\"a\":1\x7d"]⟩ (4 * 1024 * 1024) =
      .ok ⟨201, some [("content-type", "application/json")], some "\x7b\"a\":1\x7d"⟩ :=
  ⟨rfl, rfl, by decide, rfl⟩

end AzFunc
